import Mathlib

/-!
Shallow embedding of the gitdb block/record storage engine (block.go,
model.go) and the parts of its data model the verified properties need.

Conventions of the embedding:
* Go maps (`map[string]*record`, `map[string]interface{}`) are modelled as
  association lists with insert-overwrite semantics (`assocInsert`); a Go map
  never holds a duplicate key, and every list built through the embedded API
  keeps that invariant.
* Go's in-place mutation is modelled by explicit state passing: a method that
  mutates its receiver returns the updated value.
* External collaborators (the `decrypt` primitive, `encoding/json`'s
  `Unmarshal`/`Indent`/`Marshal`, the filesystem read) are abstracted as
  parameters bundled in `JsonEnv` / `FileContent`; the repository's own logic
  (ordering, error routing, caching, quarantine) is translated from the source.
* A Go `panic` (the `dataBlock[k].(string)` type assertion) is modelled as an
  `Except.error` that unwinds past the caller.
-/

/-- Lookup in an association list modelling a Go map: first binding wins
(unique keys make this the map lookup). -/
def assocLookup {α : Type} : List (String × α) → String → Option α
  | [], _ => none
  | p :: t, k => if p.1 = k then some p.2 else assocLookup t k

/-- Insert-overwrite in an association list modelling Go `m[k] = v`. -/
def assocInsert {α : Type} : List (String × α) → String → α → List (String × α)
  | [], k, v => [(k, v)]
  | p :: t, k, v => if p.1 = k then (k, v) :: t else p :: assocInsert t k v

/-- Removal modelling Go `delete(m, k)` (at most one binding exists). -/
def assocErase {α : Type} : List (String × α) → String → List (String × α)
  | [], _ => []
  | p :: t, k => if p.1 = k then t else p :: assocErase t k

/-- One stored record.  record.go is not under src/; the field set is the one
the sources use: `newRecord(k, v)` fills `key` and `data` (write path) and
hydration builds `record{Content: rec}` (read path); unset fields keep Go's
zero value `""`. -/
structure record where
  key : String
  data : String
  Content : String
deriving DecidableEq, Repr

/-- Modelled from the spec: record.go (holding `newRecord`) is not under src/.
Per spec section 3, a Record is "a key and its raw (possibly still-encrypted)
JSON payload", created on insert with the given key and value. -/
def newRecord (key value : String) : record :=
  { key := key, data := value, Content := "" }

/-- The block struct of block.go.  The `Dataset *dataset` back-pointer is
passed explicitly to the functions that dereference it. -/
structure block where
  Name : String
  Size : Int
  Records : List record
  BadRecords : List String
  recs : List (String × record)
  datasetName : String
deriving DecidableEq, Repr

/-- Modelled from the spec: dataset.go is not under src/.  Per spec sections 3
and 4.3 a dataset carries the root path, the dataset name (paths are
`<path>/<name>/<block>.json`), the crypto key handed to blocks, and the
`BadBlocks`/`BadRecords` diagnostic lists the sources mutate. -/
structure dataset where
  DbPath : String
  Name : String
  cryptoKey : String
  BadBlocks : List String
  BadRecords : List String
deriving DecidableEq, Repr

/-- block.add: `b.recs[key] = newRecord(key, value)`. -/
def block.add (b : block) (key value : String) : block :=
  { b with recs := assocInsert b.recs key (newRecord key value) }

/-- block.get: the record under `key`, or the error "key does not exist". -/
def block.get (b : block) (key : String) : Except String record :=
  match assocLookup b.recs key with
  | some r => Except.ok r
  | none => Except.error "key does not exist"

/-- block.delete: removes the record under `key` (returning the updated
block), or the error "key does not exist". -/
def block.delete (b : block) (key : String) : Except String block :=
  match assocLookup b.recs key with
  | some _ => Except.ok { b with recs := assocErase b.recs key }
  | none => Except.error "key does not exist"

/-- block.size: `len(b.recs)`. -/
def block.size (b : block) : Nat :=
  b.recs.length

/-- Byte-lexicographic comparison of char lists (Go compares strings by
bytes; for the ASCII data of this development char order and byte order
agree). -/
def charListLt : List Char → List Char → Bool
  | [], [] => false
  | [], _ :: _ => true
  | _ :: _, [] => false
  | a :: as, b :: bs =>
    if a.val < b.val then true
    else if b.val < a.val then false
    else charListLt as bs

/-- Go's `s1 < s2` on strings. -/
def strLt (a b : String) : Bool :=
  charListLt a.data b.data

/-- Insert into an ascending list, modelling one step of `sort.Strings`'s
ascending ordering. -/
def insertSorted (x : String) : List String → List String
  | [] => [x]
  | y :: ys => if strLt y x then y :: insertSorted x ys else x :: y :: ys

/-- Ascending sort of strings (the result `sort.Strings` produces). -/
def sortStrings (l : List String) : List String :=
  l.foldr insertSorted []

/-- orderMapKeys: the map's keys in sorted (ascending lexicographic) order. -/
def orderMapKeys {α : Type} (entries : List (String × α)) : List String :=
  sortStrings (entries.map Prod.fst)

/-- A value of the decoded outer JSON object (`map[string]interface{}`): the
per-record loop only distinguishes strings (which it processes) from any
non-string JSON value, on which the `dataBlock[k].(string)` type assertion
panics. -/
inductive OuterVal where
  | str (s : String)
  | nonString
deriving DecidableEq, Repr

/-- Is the outer value a JSON string? -/
def isStrVal : OuterVal → Bool
  | OuterVal.str _ => true
  | OuterVal.nonString => false

/-- What `ioutil.ReadFile` + the outer `json.Unmarshal` yield for a block's
file: a read error, bytes that are not a JSON object, or the decoded
key-to-value object (unique keys, as in any Go map). -/
inductive FileContent where
  | readError
  | notJson
  | jsonMap (entries : List (String × OuterVal))
deriving DecidableEq, Repr

/-- The external collaborators of the read path: the `decrypt(key, text)`
primitive and `encoding/json`'s per-record `Unmarshal` (into a map) and
`Indent` (`none` models an error). -/
structure JsonEnv where
  decryptRaw : String → String → String
  unmarshalOk : String → Bool
  indentJSON : String → Option String

/-- The errors `readBlock` can produce: the `ReadFile` error, a
`badBlockError` (carrying the block file path), a `badRecordError` (carrying
the record key), or the type-assertion panic; the collaborator's error
message strings are not modelled. -/
inductive ReadErr where
  | ioError
  | badBlock (blockFile : String)
  | badRecord (recordID : String)
  | goPanic
deriving DecidableEq, Repr

/-- `filepath.Join(b.Dataset.DbPath, b.Dataset.Name, b.Name+".json")`,
modelled as plain "/"-joining (the components carry no separators). -/
def blockFilePath (d : dataset) (bname : String) : String :=
  d.DbPath ++ "/" ++ d.Name ++ "/" ++ bname ++ ".json"

/-- block.decrypt: use the collaborator's result when it is non-empty,
otherwise fall back to the original string. -/
def block.decrypt (env : JsonEnv) (d : dataset) (str : String) : String :=
  let dec := env.decryptRaw d.cryptoKey str
  if 0 < dec.length then dec else str

/-- The per-key loop of readBlock: look the key up in the decoded object,
assert it is a string (panic otherwise), decrypt, then validate with
`json.Unmarshal` and re-indent with `json.Indent`; the first failing record
aborts with a `badRecordError` for its key. -/
def processEntries (env : JsonEnv) (d : dataset) (dataBlock : List (String × OuterVal)) :
    List String → Except ReadErr (List String)
  | [] => Except.ok []
  | k :: ks =>
    match assocLookup dataBlock k with
    | some (OuterVal.str s) =>
      let recordStr := block.decrypt env d s
      if env.unmarshalOk recordStr then
        match env.indentJSON recordStr with
        | some buf =>
          match processEntries env d dataBlock ks with
          | Except.ok rest => Except.ok (buf :: rest)
          | Except.error e => Except.error e
        | none => Except.error (ReadErr.badRecord k)
      else Except.error (ReadErr.badRecord k)
    | _ => Except.error ReadErr.goPanic

/-- block.readBlock: read the file, decode the outer JSON object (failure is
a `badBlockError` carrying the file path), then process the records in sorted
key order. -/
def readBlock (env : JsonEnv) (d : dataset) (bname : String) (file : FileContent) :
    Except ReadErr (List String) :=
  let blockFile := blockFilePath d bname
  match file with
  | FileContent.readError => Except.error ReadErr.ioError
  | FileContent.notJson => Except.error (ReadErr.badBlock blockFile)
  | FileContent.jsonMap entries => processEntries env d entries (orderMapKeys entries)

/-- block.records: clear the dataset's diagnostics, read the block, route a
bad block / bad record into the respective list (returning no records), and
otherwise wrap each formatted string into a record.  `Except.error ()` models
the type-assertion panic unwinding past `records` (the dataset keeps the
mutations applied before the panic). -/
def block.records (env : JsonEnv) (file : FileContent) (b : block) (d : dataset) :
    Except Unit (List record) × dataset :=
  let d1 : dataset := { d with BadBlocks := [], BadRecords := [] }
  match readBlock env d1 b.Name file with
  | Except.error (ReadErr.badBlock bf) =>
    (Except.ok [], { d1 with BadBlocks := d1.BadBlocks ++ [bf] })
  | Except.error (ReadErr.badRecord rid) =>
    (Except.ok [], { d1 with BadRecords := d1.BadRecords ++ [rid] })
  | Except.error ReadErr.ioError => (Except.ok [], d1)
  | Except.error ReadErr.goPanic => (Except.error (), d1)
  | Except.ok recs =>
    (Except.ok (recs.map fun c => { key := "", data := "", Content := c }), d1)

/-- The state a hydration step works on: the block, its dataset, and an
instrumentation counter of how many physical file reads have happened (each
`block.records` call performs exactly one `ReadFile`). -/
structure HydState where
  b : block
  d : dataset
  fileReads : Nat
deriving DecidableEq, Repr

/-- Outcome of a hydrating call: the updated state, or a panic that unwound
(carrying the dataset mutations and reads that already happened). -/
inductive HydOut where
  | ok (s : HydState)
  | panicked (d : dataset) (fileReads : Nat)
deriving DecidableEq, Repr

/-- block.loadRecords: `if len(b.Records) == 0 { b.Records = b.records() }`. -/
def block.loadRecords (env : JsonEnv) (file : FileContent) (s : HydState) : HydOut :=
  if s.b.Records.length = 0 then
    match block.records env file s.b s.d with
    | (Except.ok recs, d1) =>
      HydOut.ok { b := { s.b with Records := recs }, d := d1, fileReads := s.fileReads + 1 }
    | (Except.error _, d1) => HydOut.panicked d1 (s.fileReads + 1)
  else HydOut.ok s

/-- block.RecordCount: hydrate if needed, then `len(b.Records)`; `none`
models the call panicking instead of returning. -/
def block.RecordCount (env : JsonEnv) (file : FileContent) (s : HydState) :
    Option (Nat × HydState) :=
  match block.loadRecords env file s with
  | HydOut.ok s1 => some (s1.b.Records.length, s1)
  | HydOut.panicked _ _ => none

/-- Does the record stored under `k` fail the per-record validation (its
decrypted content fails `json.Unmarshal` or `json.Indent`)? -/
def entryBad (env : JsonEnv) (d : dataset) (entries : List (String × OuterVal))
    (k : String) : Bool :=
  match assocLookup entries k with
  | some (OuterVal.str s) =>
    !env.unmarshalOk (block.decrypt env d s) ||
      (env.indentJSON (block.decrypt env d s)).isNone
  | _ => false

/-- A decoded JSON value as `encoding/json` stores it in a
`map[string]interface{}`.  Numbers are kept as integers: `%v` prints the
integral `float64` values the verified inputs use without a decimal point. -/
inductive Jval where
  | num (n : Int)
  | str (s : String)
  | boolean (b : Bool)
  | null
deriving DecidableEq, Repr

/-- `fmt.Sprintf("%v", jsonMap[key])`: a missing key yields the nil
interface, printed as "<nil>"; so is a JSON null. -/
def fmtV : Option Jval → String
  | none => "<nil>"
  | some Jval.null => "<nil>"
  | some (Jval.num n) => toString n
  | some (Jval.str s) => s
  | some (Jval.boolean b) => if b then "true" else "false"

/-- `json.Unmarshal` of an object into an existing Go map: new entries are
added, colliding keys overwritten, and entries absent from the decoded object
are KEPT (the map is reused, not cleared). -/
def mergeAssoc {α : Type} (m adds : List (String × α)) : List (String × α) :=
  adds.foldl (fun acc p => assocInsert acc p.1 p.2) m

/-- `val[0:n]` on a Go string, for the ASCII data of this development
(byte slicing and char slicing agree). -/
def goTruncate (s : String) (n : Nat) : String :=
  String.mk (s.data.take n)

/-- The table struct the presentation layer consumes (its own file is not
under src/; `table()` populates exactly `Headers` and `Rows`). -/
structure table where
  Headers : List String
  Rows : List (List String)
deriving DecidableEq, Repr

/-- The loop-carried state of block.table: `rawV2` (its `Indexes` and `Data`
maps) and `jsonMap` are declared OUTSIDE the loop in the source, so their
contents persist from record to record; the table being built is `t`. -/
structure TableLoopState where
  rawIndexes : List (String × Jval)
  rawData : List (String × Jval)
  jsonMap : List (String × Jval)
  t : table
deriving Repr

/-- One iteration of block.table's loop over `b.Records`: unmarshal the
record's content into `rawV2` (a failure is only logged, leaving the previous
contents in place), marshal `rawV2.Data` and unmarshal it into `jsonMap`
(merging), set the headers from the first record's `jsonMap`, and render one
row, truncating every cell longer than 40 bytes to its first 40. -/
def tableStep (pe : String → Option (List (String × Jval) × List (String × Jval)))
    (i : Nat) (st : TableLoopState) (rec : record) : TableLoopState :=
  let merged :=
    match pe rec.Content with
    | some (ie, de) => (mergeAssoc st.rawIndexes ie, mergeAssoc st.rawData de)
    | none => (st.rawIndexes, st.rawData)
  let jm := mergeAssoc st.jsonMap merged.2
  let headers := if i = 0 then orderMapKeys jm else st.t.Headers
  let row := headers.map fun key =>
    let val := fmtV (assocLookup jm key)
    if 40 < val.length then goTruncate val 40 else val
  { rawIndexes := merged.1, rawData := merged.2, jsonMap := jm,
    t := { Headers := headers, Rows := st.t.Rows ++ [row] } }

/-- block.table's `for i, record := range b.Records` loop. -/
def tableLoop (pe : String → Option (List (String × Jval) × List (String × Jval))) :
    Nat → TableLoopState → List record → table
  | _, st, [] => st.t
  | i, st, r :: rs => tableLoop pe (i + 1) (tableStep pe i st r) rs

/-- block.table: hydrate if needed (`b.loadRecords()`), then render the
hydrated records; `pe` is `encoding/json` decoding a record's content into
`rawV2`'s `Indexes` and `Data` object fields (`none` = Unmarshal error).
`none` overall models the hydration panicking. -/
def block.table (env : JsonEnv)
    (pe : String → Option (List (String × Jval) × List (String × Jval)))
    (file : FileContent) (s : HydState) : Option table :=
  match block.loadRecords env file s with
  | HydOut.ok s1 =>
    some (tableLoop pe 0 ⟨[], [], [], { Headers := [], Rows := [] }⟩ s1.b.Records)
  | HydOut.panicked _ _ => none

/-- Modelled from the spec: schema.go is not under src/.  Per spec section 3,
a Schema captures the owning model's "declared index field names → values";
model.go reads exactly its `indexes` mapping. -/
structure Schema where
  indexes : List (String × String)

/-- The Model interface of model.go, encoded as a record of operations over a
model state type σ; `BeforeInsert` may mutate the model and returns its error
(`none` = nil). -/
structure ModelOps (σ : Type) where
  GetSchema : σ → Schema
  Validate : σ → Option String
  IsLockable : σ → Bool
  GetLockFileNames : σ → List String
  ShouldEncrypt : σ → Bool
  BeforeInsert : σ → σ × Option String

/-- Modelled from the spec: the RecVersion constant is not under src/; per
spec section 3 it is the storage "format/schema version string" (the record
format is the `rawV2` envelope). -/
def RecVersion : String := "v2"

/-- The model envelope struct of model.go: Version, Indexes, Data. -/
structure model (σ : Type) where
  Version : String
  Indexes : List (String × String)
  Data : σ

/-- wrap: a fresh envelope with the current format version and the given
model; `Indexes` keeps Go's zero value (nil, modelled as []). -/
def wrap {σ : Type} (m : σ) : model σ :=
  { Version := RecVersion, Indexes := [], Data := m }

/-- model.GetSchema: pure delegation to the wrapped model. -/
def model.GetSchema {σ : Type} (ops : ModelOps σ) (m : model σ) : Schema :=
  ops.GetSchema m.Data

/-- model.BeforeInsert: run the wrapped model's hook (mutating `Data`), then
overwrite `Indexes` from the model's current schema state, and return the
hook's error. -/
def model.BeforeInsert {σ : Type} (ops : ModelOps σ) (m : model σ) :
    model σ × Option String :=
  let r := ops.BeforeInsert m.Data
  let m1 := { m with Data := r.1 }
  ({ m1 with Indexes := (model.GetSchema ops m1).indexes }, r.2)

/-- TimeStampedModel of model.go; `time.Time` is modelled as nanoseconds
since the epoch, with 0 the zero time (`IsZero`); `time.Now()` is passed in
as `now` and is never the zero time. -/
structure TimeStampedModel where
  CreatedAt : Nat
  UpdatedAt : Nat
deriving DecidableEq, Repr

/-- TimeStampedModel.BeforeInsert: stamp `UpdatedAt` always, `CreatedAt` only
when it is the zero time; always returns nil. -/
def TimeStampedModel.BeforeInsert (now : Nat) (m : TimeStampedModel) :
    TimeStampedModel × Option String :=
  let stampTime := now
  let m1 := if m.CreatedAt = 0 then { m with CreatedAt := stampTime } else m
  ({ m1 with UpdatedAt := stampTime }, none)

/-- A collaborator environment for concrete runs: decryption passes text
through unchanged (non-empty input stays non-empty), every record text
unmarshals, and indentation returns the text itself. -/
def envAll : JsonEnv :=
  { decryptRaw := fun _ s => s
    unmarshalOk := fun _ => true
    indentJSON := fun s => some s }

/-- A collaborator environment whose `json.Unmarshal` rejects exactly the
record text "bad". -/
def envRejectBad : JsonEnv :=
  { decryptRaw := fun _ s => s
    unmarshalOk := fun s => decide (s ≠ "bad")
    indentJSON := fun s => some s }

/-- A collaborator environment whose decryption always yields the empty
string (nothing decryptable). -/
def envDecryptEmpty : JsonEnv :=
  { decryptRaw := fun _ _ => ""
    unmarshalOk := fun _ => true
    indentJSON := fun s => some s }

/-- A collaborator environment whose decryption always yields "PLAIN". -/
def envDecryptPlain : JsonEnv :=
  { decryptRaw := fun _ _ => "PLAIN"
    unmarshalOk := fun _ => true
    indentJSON := fun s => some s }

/-- A concrete dataset with no diagnostics recorded. -/
def d0 : dataset :=
  { DbPath := "db", Name := "users", cryptoKey := "key", BadBlocks := [], BadRecords := [] }

/-- A concrete block with nothing loaded and an empty record index. -/
def b0 : block :=
  { Name := "b1", Size := 0, Records := [], BadRecords := [], recs := [], datasetName := "users" }

/-- A concrete block already holding a record under "a". -/
def bA : block :=
  { b0 with recs := [("a", newRecord "a" "x")] }

/-- The hydration state before any call: `b0`, `d0`, no reads yet. -/
def hyd0 : HydState := { b := b0, d := d0, fileReads := 0 }

/-- `hyd0` after n physical reads of a file that yields no records. -/
def hydN (n : Nat) : HydState := { b := b0, d := d0, fileReads := n }

/-- The envelope decoding of the three-record table example: contents "c1",
"c2", "c3" decode to `Data` objects x=1,y=2 / x=3 / y=4,x=5 (and no
indexes). -/
def peC9 : String → Option (List (String × Jval) × List (String × Jval)) :=
  fun s =>
    if s = "c1" then some ([], [("x", Jval.num 1), ("y", Jval.num 2)])
    else if s = "c2" then some ([], [("x", Jval.num 3)])
    else if s = "c3" then some ([], [("y", Jval.num 4), ("x", Jval.num 5)])
    else none

/-- A block hydrated with the three table-example records. -/
def hydC9 : HydState :=
  { b := { b0 with Records :=
      [{ key := "", data := "", Content := "c1" },
       { key := "", data := "", Content := "c2" },
       { key := "", data := "", Content := "c3" }] }
    d := d0, fileReads := 1 }

/-- The table the source renders for the three-record example. -/
def tC9 : table :=
  { Headers := ["x", "y"]
    Rows := [["1", "2"], ["3", "2"], ["5", "4"]] }

/-- A 50-character cell value. -/
def long50 : String := "0123456789012345678901234567890123456789ABCDEFGHIJ"

/-- The envelope decoding of a single record whose only `Data` value is the
50-character string. -/
def peLong : String → Option (List (String × Jval) × List (String × Jval)) :=
  fun s => if s = "cL" then some ([], [("x", Jval.str long50)]) else none

/-- A block hydrated with the single long-valued record. -/
def hydLong : HydState :=
  { b := { b0 with Records := [{ key := "", data := "", Content := "cL" }] }
    d := d0, fileReads := 1 }

/-- A model implementation over a Nat state (a stored timestamp): its
`BeforeInsert` stamps the timestamp to 42, and its schema indexes the
stamped field. -/
def stampOps : ModelOps Nat :=
  { GetSchema := fun n => { indexes := [("created_at", toString n)] }
    Validate := fun _ => none
    IsLockable := fun _ => false
    GetLockFileNames := fun _ => []
    ShouldEncrypt := fun _ => false
    BeforeInsert := fun _ => (42, none) }

/-- A block file holding one well-formed record under key "a". -/
def fileOne : FileContent := FileContent.jsonMap [("a", OuterVal.str "x")]

/-- The hydration state `fileOne` produces: one record, one read. -/
def hydLoaded : HydState :=
  { b := { b0 with Records := [{ key := "", data := "", Content := "x" }] }
    d := d0, fileReads := 1 }

/-- Outer entries whose record under "b" (the later key in sorted order) has
content the collaborator's Unmarshal rejects. -/
def entriesC5 : List (String × OuterVal) :=
  [("a", OuterVal.str "good"), ("b", OuterVal.str "bad")]

theorem assocLookup_insert {α : Type} (m : List (String × α)) (k : String) (v : α) :
    assocLookup (assocInsert m k v) k = some v := by
  induction m with
  | nil => simp [assocInsert, assocLookup]
  | cons p t ih =>
    by_cases h : p.1 = k
    · simp [assocInsert, assocLookup, h]
    · simp [assocInsert, assocLookup, h, ih]

theorem assocErase_insert_of_lookup_none {α : Type} (m : List (String × α)) (k : String)
    (v : α) (h : assocLookup m k = none) :
    assocErase (assocInsert m k v) k = m := by
  induction m with
  | nil => simp [assocInsert, assocErase]
  | cons p t ih =>
    by_cases hk : p.1 = k
    · simp [assocLookup, hk] at h
    · rw [assocLookup, if_neg hk] at h
      simp [assocInsert, assocErase, hk, ih h]

theorem mem_insertSorted (a x : String) (l : List String) :
    a ∈ insertSorted x l ↔ a = x ∨ a ∈ l := by
  induction l with
  | nil => simp [insertSorted]
  | cons y ys ih =>
    by_cases h : strLt y x = true
    · simp only [insertSorted, h, if_true, List.mem_cons, ih]
      tauto
    · simp only [insertSorted, h, if_false, Bool.false_eq_true, List.mem_cons]

theorem mem_sortStrings (a : String) (l : List String) :
    a ∈ sortStrings l ↔ a ∈ l := by
  induction l with
  | nil => simp [sortStrings]
  | cons x xs ih =>
    show a ∈ insertSorted x (sortStrings xs) ↔ _
    rw [mem_insertSorted, ih]
    simp

theorem mem_orderMapKeys {α : Type} (entries : List (String × α)) (k : String) :
    k ∈ orderMapKeys entries ↔ k ∈ entries.map Prod.fst := by
  unfold orderMapKeys
  exact mem_sortStrings k (entries.map Prod.fst)

theorem assocLookup_eq_some_of_mem_keys {α : Type} (m : List (String × α)) (k : String)
    (h : k ∈ m.map Prod.fst) : ∃ v, assocLookup m k = some v := by
  induction m with
  | nil => simp at h
  | cons p t ih =>
    by_cases hk : p.1 = k
    · exact ⟨p.2, by simp [assocLookup, hk]⟩
    · have hmem : k ∈ t.map Prod.fst := by
        rcases List.mem_cons.mp h with h1 | h1
        · exact absurd h1.symm hk
        · exact h1
      obtain ⟨v, hv⟩ := ih hmem
      exact ⟨v, by simp [assocLookup, hk, hv]⟩

theorem assocLookup_mem {α : Type} (m : List (String × α)) (k : String) (v : α)
    (h : assocLookup m k = some v) : (k, v) ∈ m := by
  induction m with
  | nil => simp [assocLookup] at h
  | cons p t ih =>
    rw [assocLookup] at h
    by_cases hk : p.1 = k
    · rw [if_pos hk, Option.some.injEq] at h
      refine List.mem_cons.mpr (Or.inl ?_)
      cases p with
      | mk a b =>
        simp only at hk h
        rw [hk, h]
    · rw [if_neg hk] at h
      exact List.mem_cons_of_mem _ (ih h)

theorem processEntries_find_bad (env : JsonEnv) (d : dataset)
    (entries : List (String × OuterVal)) (l : List String) (k0 : String)
    (hl : ∀ k ∈ l, ∃ s, assocLookup entries k = some (OuterVal.str s))
    (hfind : l.find? (entryBad env d entries) = some k0) :
    processEntries env d entries l = Except.error (ReadErr.badRecord k0) := by
  induction l with
  | nil => simp [List.find?] at hfind
  | cons k ks ih =>
    obtain ⟨s, hs⟩ := hl k (List.mem_cons_self k ks)
    by_cases hb : entryBad env d entries k = true
    · rw [List.find?_cons_of_pos _ hb, Option.some.injEq] at hfind
      subst hfind
      simp only [entryBad, hs] at hb
      cases hu : env.unmarshalOk (block.decrypt env d s) with
      | false => simp [processEntries, hs, hu]
      | true =>
        have hind : env.indentJSON (block.decrypt env d s) = none := by
          rw [hu] at hb
          simpa using hb
        simp [processEntries, hs, hu, hind]
    · cases hu : env.unmarshalOk (block.decrypt env d s) with
      | false => exact absurd (by simp [entryBad, hs, hu]) hb
      | true =>
        cases hi : env.indentJSON (block.decrypt env d s) with
        | none => exact absurd (by simp [entryBad, hs, hu, hi]) hb
        | some buf =>
          rw [List.find?_cons_of_neg _ hb] at hfind
          have hks : ∀ k2 ∈ ks, ∃ s2, assocLookup entries k2 = some (OuterVal.str s2) :=
            fun k2 hk2 => hl k2 (List.mem_cons_of_mem _ hk2)
          have hrec := ih hks hfind
          simp [processEntries, hs, hu, hi, hrec]

/-- C1: for every key k and value v, after add(k, v) on a block and then
get(k) on the same block, get succeeds and the returned record's content
(its `data` payload) equals v. -/
theorem add_get_roundtrip (b : block) (k v : String) :
    ∃ r, block.get (block.add b k v) k = Except.ok r ∧ r.data = v := by
  refine ⟨newRecord k v, ?_, rfl⟩
  show (match assocLookup (assocInsert b.recs k (newRecord k v)) k with
        | some r => Except.ok r
        | none => Except.error "key does not exist") = Except.ok (newRecord k v)
  rw [assocLookup_insert]

/-- C2 counterexample: on a block that already holds key "a", size() is 1
before the add; add("a", _) overwrites in place and delete("a") then removes
the record, so size() afterwards is 0, not the pre-add value 1 — the claim
fails whenever the key was already present. -/
theorem size_add_delete_existing_key_cex :
    block.size bA = 1 ∧
    block.delete (block.add bA "a" "y") "a" = Except.ok b0 ∧
    block.size b0 = 0 :=
  ⟨rfl, rfl, rfl⟩

/-- C2 (amended): when key k is NOT already present in the block, size()
after add(k, v) followed by delete(k) returns the value size() returned
before the add (indeed the whole record index returns to its former state). -/
theorem size_add_delete_fresh_key (b : block) (k v : String)
    (h : assocLookup b.recs k = none) :
    ∃ b2, block.delete (block.add b k v) k = Except.ok b2 ∧
      block.size b2 = block.size b := by
  refine ⟨b, ?_, rfl⟩
  show (match assocLookup (assocInsert b.recs k (newRecord k v)) k with
        | some _ =>
          Except.ok { b with recs := assocErase (assocInsert b.recs k (newRecord k v)) k }
        | none => Except.error "key does not exist") = Except.ok b
  rw [assocLookup_insert, assocErase_insert_of_lookup_none _ _ _ h]

theorem size_add_delete_fresh_key_witness :
    ∃ b2, block.delete (block.add b0 "a" "x") "a" = Except.ok b2 ∧
      block.size b2 = block.size b0 :=
  size_add_delete_fresh_key b0 "a" "x" rfl

/-- C3 counterexample: a block whose file hydrates to ZERO records (here an
empty JSON object) is re-read by the second RecordCount call — `loadRecords`
only skips the load when the in-memory list is non-empty, so loading is not
"at most once per block instance": the physical-read counter reaches 2. -/
theorem recordCount_rereads_cex :
    block.RecordCount envAll (FileContent.jsonMap []) (hydN 0) = some (0, hydN 1) ∧
    block.RecordCount envAll (FileContent.jsonMap []) (hydN 1) = some (0, hydN 2) :=
  ⟨rfl, rfl⟩

/-- C3 (amended): hydration is skipped exactly when the in-memory record list
is non-empty; so after a hydration that produced at least one record, a
second hydration is a no-op — no further file read, no state change.  (After
a hydration that produced zero records the file IS re-read.) -/
theorem loadRecords_skip_after_nonempty_load (env : JsonEnv) (file : FileContent)
    (s s1 : HydState) (h : block.loadRecords env file s = HydOut.ok s1)
    (hne : s1.b.Records ≠ []) :
    block.loadRecords env file s1 = HydOut.ok s1 := by
  unfold block.loadRecords
  have hlen : ¬ s1.b.Records.length = 0 := by
    simpa [List.length_eq_zero] using hne
  simp [hlen]

theorem loadRecords_skip_after_nonempty_load_witness :
    block.loadRecords envAll fileOne hydLoaded = HydOut.ok hydLoaded :=
  loadRecords_skip_after_nonempty_load envAll fileOne (hydN 0) hydLoaded rfl (by decide)

/-- C4 counterexample: a block file whose outer bytes decode as a JSON object
but NOT as a key-to-STRING mapping (here one entry holds a non-string JSON
value).  Hydration does not add the file path to BadBlocks and does not
return cleanly: the `dataBlock[k].(string)` type assertion panics, a failure
that propagates to the caller — refuting the claim for this input. -/
theorem records_nonstring_value_panic_cex :
    block.records envAll (FileContent.jsonMap [("a", OuterVal.nonString)]) b0 d0
      = (Except.error (), d0) :=
  rfl

/-- C4 (amended): for every block whose file's outer bytes fail to decode as
a JSON object at all (the decode `readBlock` actually performs), hydration
adds the block's file path to the dataset's BadBlocks list and yields an
empty record list, with no failure propagating to the caller.  (A JSON
object carrying a non-string value instead panics.) -/
theorem records_badBlock_quarantine (env : JsonEnv) (b : block) (d : dataset) :
    block.records env FileContent.notJson b d
      = (Except.ok [],
         { d with BadBlocks := [blockFilePath d b.Name], BadRecords := [] }) :=
  rfl

/-- C5: hydrating a structurally valid block file (a key-to-string object)
some of whose entries' decrypted contents fail Unmarshal or Indent records
the key of the FIRST such entry in lexicographic key order in the dataset's
BadRecords list, stops processing, and yields zero records (BadBlocks stays
empty). -/
theorem records_first_bad_record (env : JsonEnv) (b : block) (d : dataset)
    (entries : List (String × OuterVal)) (k0 : String)
    (hstr : ∀ p ∈ entries, isStrVal p.2 = true)
    (hfind : (orderMapKeys entries).find? (entryBad env d entries) = some k0) :
    block.records env (FileContent.jsonMap entries) b d
      = (Except.ok [], { d with BadBlocks := [], BadRecords := [k0] }) := by
  have hl : ∀ k ∈ orderMapKeys entries,
      ∃ s, assocLookup entries k = some (OuterVal.str s) := by
    intro k hk
    obtain ⟨v, hv⟩ := assocLookup_eq_some_of_mem_keys entries k
      ((mem_orderMapKeys entries k).mp hk)
    have hvs := hstr (k, v) (assocLookup_mem entries k v hv)
    cases v with
    | str s => exact ⟨s, hv⟩
    | nonString => simp [isStrVal] at hvs
  have hfun : entryBad env { d with BadBlocks := [], BadRecords := [] } entries
      = entryBad env d entries := rfl
  have hp := processEntries_find_bad env { d with BadBlocks := [], BadRecords := [] }
    entries (orderMapKeys entries) k0 hl (by rw [hfun]; exact hfind)
  have hrb : readBlock env { d with BadBlocks := [], BadRecords := [] } b.Name
      (FileContent.jsonMap entries) = Except.error (ReadErr.badRecord k0) := hp
  simp [block.records, hrb]

theorem records_first_bad_record_witness :
    block.records envRejectBad (FileContent.jsonMap entriesC5) b0 d0
      = (Except.ok [], { d0 with BadBlocks := [], BadRecords := ["b"] }) :=
  records_first_bad_record envRejectBad b0 d0 entriesC5 "b" (by decide) (by decide)

/-- C6: on every block read, the dataset's BadBlocks and BadRecords lists are
first cleared and then repopulated only from that single read's outcome —
the result does not depend on the previously recorded diagnostics, and the
new lists are exactly what the read produced (the bad block's path, the bad
record's key, or nothing). -/
theorem records_diagnostics_reset (env : JsonEnv) (file : FileContent) (b : block)
    (d : dataset) (bb br : List String) :
    block.records env file b { d with BadBlocks := bb, BadRecords := br }
      = block.records env file b d ∧
    ((block.records env file b d).2.BadBlocks, (block.records env file b d).2.BadRecords)
      = (match readBlock env { d with BadBlocks := [], BadRecords := [] } b.Name file with
        | Except.error (ReadErr.badBlock bf) => ([bf], [])
        | Except.error (ReadErr.badRecord rid) => ([], [rid])
        | _ => ([], [])) := by
  constructor
  · rfl
  · simp only [block.records]
    cases hrb : readBlock env { d with BadBlocks := [], BadRecords := [] } b.Name file with
    | ok recs => simp [hrb]
    | error e => cases e <;> simp [hrb]

/-- C7: the per-record decryption step returns the collaborator's result when
that result is non-empty and the original string unchanged when it is empty;
its type (`String`, no error channel) shows an empty decryption is never
surfaced as an error. -/
theorem decrypt_best_effort (env : JsonEnv) (d : dataset) (s : String) :
    ((env.decryptRaw d.cryptoKey s).length = 0 → block.decrypt env d s = s) ∧
    (0 < (env.decryptRaw d.cryptoKey s).length →
      block.decrypt env d s = env.decryptRaw d.cryptoKey s) := by
  constructor
  · intro h
    simp [block.decrypt, h]
  · intro h
    simp [block.decrypt, h]

theorem decrypt_best_effort_witness :
    block.decrypt envDecryptEmpty d0 "ct" = "ct" ∧
    block.decrypt envDecryptPlain d0 "ct" = "PLAIN" :=
  ⟨(decrypt_best_effort envDecryptEmpty d0 "ct").1 rfl,
   (decrypt_best_effort envDecryptPlain d0 "ct").2 (by decide)⟩

/-- C8: after wrapping a domain model and calling the envelope's
BeforeInsert, the envelope's Indexes equal the index mapping of the model's
schema evaluated AFTER the model's own hook ran (the envelope delegates
first, then overwrites Indexes from the post-mutation state, and passes the
hook's error through); concretely, a hook that stamps an indexed field to 42
yields the stamped index value, not a stale snapshot. -/
theorem envelope_beforeInsert_refreshes_indexes (σ : Type) (ops : ModelOps σ) (m0 : σ) :
    (model.BeforeInsert ops (wrap m0)).1.Indexes
        = (ops.GetSchema (ops.BeforeInsert m0).1).indexes ∧
    (model.BeforeInsert ops (wrap m0)).1.Data = (ops.BeforeInsert m0).1 ∧
    (model.BeforeInsert ops (wrap m0)).2 = (ops.BeforeInsert m0).2 ∧
    (model.BeforeInsert stampOps (wrap 0)).1.Indexes = [("created_at", "42")] :=
  ⟨rfl, rfl, rfl, rfl⟩

/-- C10: TimeStampedModel.BeforeInsert always returns success, sets UpdatedAt
to the stamp time on every call, and sets CreatedAt only when it was the zero
time — after a first-ever call CreatedAt equals UpdatedAt, and a later call
leaves CreatedAt unchanged while refreshing UpdatedAt (the stamp time t of a
real call, `time.Now()`, is never the zero time). -/
theorem timeStamped_beforeInsert (m : TimeStampedModel) (t t2 : Nat) (ht : t ≠ 0) :
    ((TimeStampedModel.BeforeInsert t m).2 = none) ∧
    ((TimeStampedModel.BeforeInsert t m).1.UpdatedAt = t) ∧
    (m.CreatedAt ≠ 0 → (TimeStampedModel.BeforeInsert t m).1.CreatedAt = m.CreatedAt) ∧
    (m.CreatedAt = 0 →
      (TimeStampedModel.BeforeInsert t m).1.CreatedAt
          = (TimeStampedModel.BeforeInsert t m).1.UpdatedAt ∧
      (TimeStampedModel.BeforeInsert t2 (TimeStampedModel.BeforeInsert t m).1).1.CreatedAt
          = t ∧
      (TimeStampedModel.BeforeInsert t2 (TimeStampedModel.BeforeInsert t m).1).1.UpdatedAt
          = t2) := by
  refine ⟨rfl, rfl, ?_, ?_⟩
  · intro h
    simp [TimeStampedModel.BeforeInsert, h]
  · intro h
    refine ⟨?_, ?_, rfl⟩
    · simp [TimeStampedModel.BeforeInsert, h]
    · simp [TimeStampedModel.BeforeInsert, h, ht]

theorem timeStamped_beforeInsert_witness :
    ((TimeStampedModel.BeforeInsert 5 (TimeStampedModel.mk 0 0)).2 = none) ∧
    ((TimeStampedModel.BeforeInsert 5 (TimeStampedModel.mk 0 0)).1.UpdatedAt = 5) ∧
    ((0 : Nat) ≠ 0 →
      (TimeStampedModel.BeforeInsert 5 (TimeStampedModel.mk 0 0)).1.CreatedAt = 0) ∧
    ((0 : Nat) = 0 →
      (TimeStampedModel.BeforeInsert 5 (TimeStampedModel.mk 0 0)).1.CreatedAt
          = (TimeStampedModel.BeforeInsert 5 (TimeStampedModel.mk 0 0)).1.UpdatedAt ∧
      (TimeStampedModel.BeforeInsert 9
        (TimeStampedModel.BeforeInsert 5 (TimeStampedModel.mk 0 0)).1).1.CreatedAt = 5 ∧
      (TimeStampedModel.BeforeInsert 9
        (TimeStampedModel.BeforeInsert 5 (TimeStampedModel.mk 0 0)).1).1.UpdatedAt = 9) :=
  timeStamped_beforeInsert (TimeStampedModel.mk 0 0) 5 9 (by decide)

/-- C9 counterexample: for the three hydrated records with Data objects
x=1,y=2 / x=3 / y=4,x=5, the header row is ["x","y"] as claimed, but the
second record's row is ["3","2"], not ["3",""]: `rawV2` and `jsonMap` are
declared outside the loop and `json.Unmarshal` merges into an existing map,
so the key "y" missing from the second record keeps the value decoded from
the first record rather than rendering empty. -/
theorem table_second_row_cex :
    block.table envAll peC9 (FileContent.jsonMap []) hydC9 = some tC9 ∧
    tC9.Rows[1]? = some ["3", "2"] ∧
    (["3", "2"] : List String) ≠ ["3", ""] :=
  ⟨rfl, rfl, by decide⟩

/-- C9 (amended): for the three records the header row is ["x","y"] (the
first record's keys, sorted) and the rows are [["1","2"],["3","2"],["5","4"]]
— a key missing from a later record renders the most recently decoded value
for that key (the decode maps are reused across iterations), not the empty
string; and any cell value longer than 40 characters is truncated to its
first 40 characters. -/
theorem table_projection_rows :
    block.table envAll peC9 (FileContent.jsonMap []) hydC9 = some tC9 ∧
    tC9.Headers = ["x", "y"] ∧
    block.table envAll peLong (FileContent.jsonMap []) hydLong
      = some { Headers := ["x"], Rows := [[goTruncate long50 40]] } ∧
    goTruncate long50 40 = "0123456789012345678901234567890123456789" ∧
    long50.length = 50 :=
  ⟨rfl, rfl, rfl, rfl, rfl⟩
